import Mathlib

/-!
Shallow embedding of the binding/scoping and schema-definition engine of
the cozo repository (`src/db/eval.rs`), together with theorems checking the
natural-language specification against it.

The file embeds, from the source:
  * the definition translator (`parse_cols`, `parse_node_def`,
    `parse_edge_def`, `parse_assoc_def`, `extract_table_id`),
  * the recursive partial evaluator (`partial_eval`),
  * the in-memory environment backend (`MemoryEnv`), and
  * the transactional environment backend (`Session`), over a model of the
    ordered transactional key-value store.

The value model, the tuple codec, the `Typing` renderer and the store are
code of the repository that is not under `src/` (they live in
`relation/value.rs`, `relation/tuple.rs`, `relation/typing.rs` and the
storage engine); they are modelled from the spec where noted.
-/

namespace Cozo

/-- `DataKind` discriminant stored in a data tuple's prefix
(spec section 3; `relation/data.rs` is not under `src/`). -/
inductive DataKind where
  | DataTuple
  | Value
  | Node
  | Edge
  | Associate
  | TypeAlias
deriving DecidableEq, Repr

/-- Modelled from the spec: the tagged-union value type of
`relation/value.rs` (spec section 3).  `Float` and `Uuid` payloads are kept
opaque (a `Nat` stands for the bits); every operation embedded here treats
them as inert scalars, exactly as the source's scalar match arm does. -/
inductive Val where
  | Null
  | Bool (b : Bool)
  | UInt (u : Nat)
  | Int (i : Int)
  | Float (bits : Nat)
  | Uuid (v : Nat)
  | Text (t : String)
  | List (l : List Val)
  | Dict (d : List (String × Val))
  | Variable (n : String)
  | Apply (op : String) (args : List Val)
  | EndSentinel

/-- Modelled from the spec: a decoded data tuple (`relation/tuple.rs` is not
under `src/`): a leading tag (`none` models the null prefix, `some k` a data
prefix carrying `DataKind` `k`) and the ordered decoded elements. -/
structure Tup where
  tag : Option DataKind
  body : List Val

/-- `Tuple::get(i)`: positional decode of the `i`-th element. -/
def Tup.get (t : Tup) (i : Nat) : Option Val := t.body.get? i

/-- The error kinds of `error.rs` (not under `src/`, modelled from the spec's
error taxonomy, section 7) that the embedded code can surface.  `Panicked`
models a Rust `panic!` / `todo!` / failed `unwrap`. -/
inductive CozoError where
  | UndefinedType (n : String)
  | UnexpectedDataKind (k : DataKind)
  | DuplicateNames (ns : List String)
  | LogicError (msg : String)
  | BadDataFormat
  | Panicked (msg : String)
deriving DecidableEq, Repr

/-- Modelled from the spec: `Typing` (spec section 3, `relation/typing.rs`
is not under `src/`): a primitive type tag or a named tuple of columns. -/
inductive Typing where
  | Primitive (n : String)
  | NamedTuple (cols : List (String × Typing))

mutual

/-- Modelled from the spec: the canonical textual rendering of a `Typing`
(spec section 3: typings are persisted as their textual rendering; the
source compares `keys_typing.to_string()` against `"()"`).  An empty
`NamedTuple` renders as `"()"`; a non-empty one renders its columns as
`name:type` between the parentheses. -/
def Typing.to_string : Typing → String
  | .Primitive n => n
  | .NamedTuple l => "(" ++ ntBody l ++ ")"

/-- Renders the column list of a `NamedTuple`. -/
def ntBody : List (String × Typing) → String
  | [] => ""
  | [(n, t)] => n ++ ":" ++ t.to_string
  | (n, t) :: c :: rest => n ++ ":" ++ t.to_string ++ "," ++ ntBody (c :: rest)

end

/-- `Environment::parse_cols` (src/src/db/eval.rs lines 41-66) on columns
whose surface syntax is already parsed: each column is
`(is key-marked, name, parsed typing)` (name building and type parsing are
surface-grammar work given by the opaque `Pair` cursor; they are consumed
pre-parsed here).  The source collects the names into a set and compares
sizes, which fails exactly when the names are not pairwise distinct; it then
partitions the columns, key-marked first component, preserving order. -/
def parse_cols (cols : List (Bool × String × Typing)) :
    Except CozoError (Typing × Typing) :=
  let names := cols.map (fun c => c.2.1)
  if names.Nodup then
    .ok (Typing.NamedTuple ((cols.filter (fun c => c.1)).map (fun c => (c.2.1, c.2.2))),
         Typing.NamedTuple ((cols.filter (fun c => !c.1)).map (fun c => (c.2.1, c.2.2))))
  else
    .error (.DuplicateNames names)

/-- `Environment::extract_table_id` (src/src/db/eval.rs lines 148-163).
A null-prefixed tuple has no data kind, which `data_kind()?` surfaces as an
error (modelled `BadDataFormat`); `DataTuple`, `Value` and `TypeAlias`
kinds are rejected as `UnexpectedDataKind`; a leading element that is not a
`Bool`, or a second that is not a `UInt`, panics with "Data corrupt". -/
def extract_table_id (src_tbl : Tup) : Except CozoError (DataKind × Bool × Nat) :=
  match src_tbl.tag with
  | none => .error .BadDataFormat
  | some kind =>
    match kind with
    | .DataTuple | .Value | .TypeAlias => .error (.UnexpectedDataKind kind)
    | _ =>
      match src_tbl.get 0 with
      | some (.Bool g) =>
        match src_tbl.get 1 with
        | some (.UInt i) => .ok (kind, g, i)
        | _ => .error (.Panicked "Data corrupt")
      | _ => .error (.Panicked "Data corrupt")

/-- `Environment::parse_node_def` (src/src/db/eval.rs lines 164-174), with
the definition's name and column list taken pre-parsed from the syntax
cursor. -/
def parse_node_def (name : String) (cols : List (Bool × String × Typing)) :
    Except CozoError (String × Tup) :=
  match parse_cols cols with
  | .error e => .error e
  | .ok (keys_typing, vals_typing) =>
    .ok (name, ⟨some .Node,
      [.Text keys_typing.to_string, .Text vals_typing.to_string, .Null, .Null]⟩)

/-- `Environment::parse_edge_def` (src/src/db/eval.rs lines 106-146).
`res` is the environment's `resolve`; the four syntactic children (source
name, edge name, destination name, optional column list) are taken
pre-parsed.  The control flow mirrors the source exactly: for the source
endpoint, resolution failure, then `extract_table_id`, then the
root-globality check, then the Node-kind check; then the same four steps
for the destination; then the columns. -/
def parse_edge_def (res : String → Option Tup) (src_name name dst_name : String)
    (cols : Option (List (Bool × String × Typing))) (in_root : Bool) :
    Except CozoError (String × Tup) :=
  match res src_name with
  | none => .error (.UndefinedType src_name)
  | some src_tbl =>
    match extract_table_id src_tbl with
    | .error e => .error e
    | .ok (kind, src_global, src_id) =>
      if in_root && !src_global then
        .error (.LogicError "Cannot have global edge with local nodes")
      else if kind ≠ DataKind.Node then
        .error (.UnexpectedDataKind kind)
      else
        match res dst_name with
        | none => .error (.UndefinedType dst_name)
        | some dst_tbl =>
          match extract_table_id dst_tbl with
          | .error e => .error e
          | .ok (kind2, dst_global, dst_id) =>
            if in_root && !dst_global then
              .error (.LogicError "Cannot have global edge with local nodes")
            else if kind2 ≠ DataKind.Node then
              .error (.UnexpectedDataKind kind2)
            else
              match (match cols with
                     | some cs => parse_cols cs
                     | none => .ok (Typing.NamedTuple [], Typing.NamedTuple [])) with
              | .error e => .error e
              | .ok (keys_typing, vals_typing) =>
                .ok (name, ⟨some .Edge,
                  [.Bool src_global, .UInt src_id, .Bool dst_global, .UInt dst_id,
                   .Text keys_typing.to_string, .Text vals_typing.to_string,
                   .Null, .Null]⟩)

/-- `Environment::parse_assoc_def` (src/src/db/eval.rs lines 77-98): resolve
the source table, extract its id, apply the root-globality check, parse the
columns, and reject a non-empty keys typing. -/
def parse_assoc_def (res : String → Option Tup) (name src_name : String)
    (cols : List (Bool × String × Typing)) (in_root : Bool) :
    Except CozoError (String × Tup) :=
  match res src_name with
  | none => .error (.UndefinedType src_name)
  | some src_tbl =>
    match extract_table_id src_tbl with
    | .error e => .error e
    | .ok (_kind, src_global, src_id) =>
      if in_root && !src_global then
        .error (.LogicError "Cannot have global edge with local nodes")
      else
        match parse_cols cols with
        | .error e => .error e
        | .ok (keys_typing, vals_typing) =>
          if keys_typing.to_string ≠ "()" then
            .error (.LogicError "Cannot have keys in assoc")
          else
            .ok (name, ⟨some .Associate,
              [.Bool src_global, .UInt src_id, .Text vals_typing.to_string]⟩)

mutual

/-- Modelled from the spec: `Value::is_evaluated` (`relation/value.rs` is
not under `src/`; spec section 4.4): scalars and `EndSentinel` are fully
evaluated, containers are when all their members are, `Variable` and
`Apply` are not. -/
def Val.evaluated : Val → Bool
  | .List l => evList l
  | .Dict d => evDict d
  | .Variable _ => false
  | .Apply _ _ => false
  | _ => true

/-- All elements of a list are fully evaluated. -/
def evList : List Val → Bool
  | [] => true
  | v :: vs => v.evaluated && evList vs

/-- All values of a dict are fully evaluated. -/
def evDict : List (String × Val) → Bool
  | [] => true
  | (_, v) :: rest => v.evaluated && evDict rest

end

mutual

/-- `Environment::partial_eval` (src/src/db/eval.rs lines 195-264), with the
environment's `resolve` passed as `res`.  Scalars and `EndSentinel` are
returned unchanged and fully evaluated; lists and dicts reduce their
members, conjoining the flags; a variable is looked up: unresolved it is
returned unchanged with flag `false`, resolved to a `Value`-kind tuple its
payload is unwrapped (an empty body is `BadDataFormat`), resolved to
anything else it is returned unchanged with flag `false`.  Every `Apply`
arm of the source is `todo!()` (as are `add_values`/`sub_values`), modelled
as a panic. -/
def partial_eval (res : String → Option Tup) : Val → Except CozoError (Bool × Val)
  | .Null => .ok (true, .Null)
  | .Bool b => .ok (true, .Bool b)
  | .UInt u => .ok (true, .UInt u)
  | .Int i => .ok (true, .Int i)
  | .Float f => .ok (true, .Float f)
  | .Uuid u => .ok (true, .Uuid u)
  | .Text s => .ok (true, .Text s)
  | .EndSentinel => .ok (true, .EndSentinel)
  | .List l =>
    match peList res l with
    | .error e => .error e
    | .ok (b, l') => .ok (b, .List l')
  | .Dict d =>
    match peDict res d with
    | .error e => .error e
    | .ok (b, d') => .ok (b, .Dict d')
  | .Variable n =>
    match res n with
    | none => .ok (false, .Variable n)
    | some rs =>
      match rs.tag with
      | some .Value =>
        match rs.get 0 with
        | some p => .ok (p.evaluated, p)
        | none => .error .BadDataFormat
      | _ => .ok (false, .Variable n)
  | .Apply _ _ => .error (.Panicked "operator evaluation not yet implemented")

/-- The source's `try_fold` over a list's elements: reduce each element,
conjoin the flags, short-circuit on the first error. -/
def peList (res : String → Option Tup) : List Val → Except CozoError (Bool × List Val)
  | [] => .ok (true, [])
  | v :: vs =>
    match partial_eval res v with
    | .error e => .error e
    | .ok (b, w) =>
      match peList res vs with
      | .error e => .error e
      | .ok (bs, ws) => .ok (b && bs, w :: ws)

/-- The source's `try_fold` over a dict's entries: reduce each value, keys
unchanged, conjoin the flags, short-circuit on the first error. -/
def peDict (res : String → Option Tup) :
    List (String × Val) → Except CozoError (Bool × List (String × Val))
  | [] => .ok (true, [])
  | (k, v) :: rest =>
    match partial_eval res v with
    | .error e => .error e
    | .ok (b, w) =>
      match peDict res rest with
      | .error e => .error e
      | .ok (bs, ws) => .ok (b && bs, (k, w) :: ws)

end

/-- `MemoryEnv` (src/src/db/eval.rs lines 274-278): one root map, an ordered
stack of scope maps (index 0 oldest, new scopes appended at the end, as
`Vec::push` does), and the shared storage-id counter.  The `BTreeMap`s are
modelled as association lists with insert-or-replace. -/
structure MemoryEnv where
  root : List (String × Tup)
  stack : List (List (String × Tup))
  max_storage_id : Nat

/-- `BTreeMap::get`. -/
def lookupA (m : List (String × Tup)) (name : String) : Option Tup :=
  match m with
  | [] => none
  | (k, v) :: rest => if k = name then some v else lookupA rest name

/-- `BTreeMap::insert` (replace the binding if the key is present). -/
def insertA (m : List (String × Tup)) (name : String) (data : Tup) :
    List (String × Tup) :=
  match m with
  | [] => [(name, data)]
  | (k, v) :: rest =>
    if k = name then (k, data) :: rest else (k, v) :: insertA rest name data

/-- `MemoryEnv::default` (src/src/db/eval.rs lines 280-284): empty root, one
initial scope map on the stack, counter 0. -/
def MemoryEnv.default : MemoryEnv := ⟨[], [[]], 0⟩

/-- `MemoryEnv::get_next_storage_id` (src/src/db/eval.rs lines 287-290):
one shared counter regardless of `in_root`. -/
def MemoryEnv.get_next_storage_id (e : MemoryEnv) (_in_root : Bool) :
    Nat × MemoryEnv :=
  (e.max_storage_id + 1, { e with max_storage_id := e.max_storage_id + 1 })

/-- `MemoryEnv::get_stack_depth` (src/src/db/eval.rs lines 292-294): minus
the number of scope maps on the stack. -/
def MemoryEnv.get_stack_depth (e : MemoryEnv) : Int :=
  -(e.stack.length : Int)

/-- `MemoryEnv::push_env` (src/src/db/eval.rs lines 296-298). -/
def MemoryEnv.push_env (e : MemoryEnv) : MemoryEnv :=
  { e with stack := e.stack ++ [[]] }

/-- `MemoryEnv::pop_env` (src/src/db/eval.rs lines 300-305): drop the last
scope map unless it is the only one; always `Ok`. -/
def MemoryEnv.pop_env (e : MemoryEnv) : MemoryEnv :=
  if e.stack.length > 1 then { e with stack := e.stack.dropLast } else e

/-- `MemoryEnv::resolve` (src/src/db/eval.rs lines 307-314): scan the scope
maps front to back (oldest scope first), first hit wins, then fall back to
the root map. -/
def MemoryEnv.resolve (e : MemoryEnv) (name : String) : Option Tup :=
  match e.stack.findSome? (fun layer => lookupA layer name) with
  | some r => some r
  | none => lookupA e.root name

/-- `MemoryEnv::define_data` (src/src/db/eval.rs lines 329-337): insert into
the root map, or into the last scope map (`last_mut().unwrap()` panics on an
empty stack). -/
def MemoryEnv.define_data (e : MemoryEnv) (name : String) (data : Tup)
    (in_root : Bool) : Except CozoError MemoryEnv :=
  if in_root then
    .ok { e with root := insertA e.root name data }
  else
    match e.stack.getLast? with
    | none => .error (.Panicked "unwrap on empty scope stack")
    | some last =>
      .ok { e with stack := e.stack.dropLast ++ [insertA last name data] }

/-- Modelled from the spec: the scalar values that ever occur inside the
null-prefixed lookup keys the `Session` backend builds (`push_str`,
`push_int`, `push_null`; spec sections 4.3 and 6).  Keeping key elements in
their own type mirrors the codec's property that keys are compared purely
by their encoded bytes. -/
inductive KVal where
  | KNull
  | KInt (i : Int)
  | KText (s : String)
deriving DecidableEq, Repr

/-- Modelled from the spec: the codec's tag byte for each key element kind.
The spec fixes only that the encoding is order-preserving within one kind
and lexicographic across elements; the relative tag order chosen here
(null < int < text) matches the codec's storage tags. -/
def kTag : KVal → Nat
  | .KNull => 0
  | .KInt _ => 3
  | .KText _ => 6

/-- Modelled from the spec: byte order of two encoded key elements —
tag order first, then the order-preserving payload encoding. -/
def kvalLtB : KVal → KVal → Bool
  | .KNull, .KNull => false
  | .KInt a, .KInt b => decide (a < b)
  | .KText a, .KText b => if a = b then false else decide (a < b)
  | a, b => decide (kTag a < kTag b)

/-- Modelled from the spec: byte order of two encoded keys — element-wise
lexicographic, a strict prefix sorting first (its encoding is a byte prefix
of the longer key's). -/
def keyLtB : List KVal → List KVal → Bool
  | [], [] => false
  | [], _ :: _ => true
  | _ :: _, [] => false
  | a :: as, b :: bs => kvalLtB a b || (if a = b then keyLtB as bs else false)

/-- One column family of the transactional store, modelled from the spec
(section 6) as a finite map from encoded keys to stored tuples; `put`
replaces, iteration is in key order. -/
def Store := List (List KVal × Tup)

/-- `txn.get`. -/
def getKey : Store → List KVal → Option Tup
  | [], _ => none
  | (k, v) :: rest, key => if k = key then some v else getKey rest key

/-- `txn.put`: insert-or-replace. -/
def putKey : Store → List KVal → Tup → Store
  | [], key, data => [(key, data)]
  | (k, v) :: rest, key, data =>
    if k = key then (k, data) :: rest else (k, v) :: putKey rest key data

/-- `txn.del`. -/
def delKey (s : Store) (key : List KVal) : Store :=
  s.filter (fun kv => kv.1 ≠ key)

/-- Insert one entry into a key-sorted entry list. -/
def insEntry (e : List KVal × Tup) : Store → Store
  | [] => [e]
  | f :: rest => if keyLtB e.1 f.1 then e :: f :: rest else f :: insEntry e rest

/-- The store's entries in iteration (byte) order. -/
def sortedEntries (s : Store) : Store := s.foldr insEntry []

/-- `iterator.seek(p)` followed by reading the current pair: the first
entry, in key order, whose key is not below `p`. -/
def seekFirst (s : Store) (p : List KVal) : Option (List KVal × Tup) :=
  (sortedEntries s).find? (fun e => !keyLtB e.1 p)

/-- The session state of the transactional backend: the permanent (root)
and temporary (local) column families and the current stack depth.  The
struct itself lives in `db/engine.rs` (not under `src/`); modelled from the
spec, a fresh session starts at depth 0 (spec section 4.3; the source's
`pop_env` guards on `stack_depth != 0`, confirming 0 as the root depth). -/
structure Session where
  perm : Store
  temp : Store
  stack_depth : Int

/-- A fresh session at the root scope.  Modelled from the spec: root is
depth 0. -/
def Session.start : Session := ⟨[], [], 0⟩

/-- `Session::get_stack_depth` (src/src/db/eval.rs lines 368-370). -/
def Session.get_stack_depth (st : Session) : Int := st.stack_depth

/-- `Session::push_env` (src/src/db/eval.rs lines 372-374). -/
def Session.push_env (st : Session) : Session :=
  { st with stack_depth := st.stack_depth - 1 }

/-- `Environment::encode_definable_key` (src/src/db/eval.rs lines 34-40)
for the session: the null-prefixed key `(name, depth-code)`, depth-code 0
in root. -/
def Session.encode_definable_key (st : Session) (name : String) (in_root : Bool) :
    List KVal :=
  [.KText name, .KInt (if in_root then 0 else st.stack_depth)]

/-- `Session::define_data` (src/src/db/eval.rs lines 443-455): a root
binding goes to the permanent family under `(name, 0)`; a local binding
goes to the temporary family under `(name, depth)` together with the
depth-index entry `(depth, name) → empty`. -/
def Session.define_data (st : Session) (name : String) (data : Tup)
    (in_root : Bool) : Session :=
  if in_root then
    { st with perm := putKey st.perm (st.encode_definable_key name true) data }
  else
    let ikey : List KVal := [.KInt st.stack_depth, .KText name]
    let temp1 := putKey st.temp (st.encode_definable_key name false) data
    { st with temp := putKey temp1 ikey ⟨none, []⟩ }

/-- `Session::resolve` (src/src/db/eval.rs lines 404-418): seek the
temporary family at the prefix `(name)` and take the first entry if it
starts with the prefix (so the smallest depth-code wins); otherwise fall
back to a permanent-family point lookup at `(name, 0)`. -/
def Session.resolve (st : Session) (name : String) : Option Tup :=
  let t : List KVal := [.KText name]
  match seekFirst st.temp t with
  | some (k, v) =>
    if t.isPrefixOf k then some v
    else getKey st.perm [.KText name, .KInt 0]
  | none => getKey st.perm [.KText name, .KInt 0]

/-- `Session::pop_env` (src/src/db/eval.rs lines 376-402): iterate the
temporary family from the prefix `(stack_depth)`; for every key starting
with that prefix that has a second element `name`, delete that key and the
binding key `(name, stack_depth)`; stop at the first key past the prefix;
finally increment the depth unless it is already 0. -/
def Session.pop_env (st : Session) : Session :=
  let p : List KVal := [.KInt st.stack_depth]
  let region := ((sortedEntries st.temp).dropWhile (fun e => keyLtB e.1 p)).takeWhile
    (fun e => p.isPrefixOf e.1)
  let temp' := region.foldl (fun acc e =>
    match e.1.get? 1 with
    | some name => delKey (delKey acc e.1) [name, .KInt st.stack_depth]
    | none => acc) st.temp
  { st with temp := temp',
            stack_depth :=
              if st.stack_depth ≠ 0 then st.stack_depth + 1 else st.stack_depth }

/-! ## Helper lemmas -/

theorem lookupA_insertA_self (m : List (String × Tup)) (x : String) (d : Tup) :
    lookupA (insertA m x d) x = some d := by
  induction m with
  | nil => simp [insertA, lookupA]
  | cons kv rest ih =>
    obtain ⟨k, v⟩ := kv
    by_cases h : k = x
    · subst h; simp [insertA, lookupA]
    · simp [insertA, lookupA, h, ih]

/-- Entering a scope and leaving it restores the in-memory state exactly,
provided the scope stack is non-empty (every reachable `MemoryEnv` carries
at least its initial scope map). -/
theorem mem_push_pop (e : MemoryEnv) (h : e.stack ≠ []) :
    e.push_env.pop_env = e := by
  have hlen : 0 < e.stack.length := List.length_pos.2 h
  simp only [MemoryEnv.push_env, MemoryEnv.pop_env, List.length_append,
    List.length_cons, List.length_nil]
  rw [if_pos (by omega)]
  simp [List.dropLast_concat]

/-- `push_env(); define_data(x, t, false)` produces the state whose newest
scope map holds the one binding, and popping it restores the start state. -/
theorem mem_push_def_pop (e : MemoryEnv) (x : String) (t : Tup)
    (h : e.stack ≠ []) :
    e.push_env.define_data x t false =
      .ok ⟨e.root, e.stack ++ [[(x, t)]], e.max_storage_id⟩ ∧
    (MemoryEnv.mk e.root (e.stack ++ [[(x, t)]]) e.max_storage_id).pop_env = e := by
  have hlen : 0 < e.stack.length := List.length_pos.2 h
  constructor
  · simp [MemoryEnv.push_env, MemoryEnv.define_data, List.getLast?_concat,
      List.dropLast_concat, insertA]
  · simp only [MemoryEnv.pop_env, List.length_append, List.length_cons,
      List.length_nil]
    rw [if_pos (by omega)]
    simp [List.dropLast_concat]

/-! ## C10 -/

/-- C10: on the in-memory backend, `push_env()` immediately followed by
`pop_env()` with no intervening operations restores the environment to
exactly its prior state — root map, scope stack and storage-id counter all
unchanged (state equality). -/
theorem C10_push_pop_restores_state (e : MemoryEnv) (h : e.stack ≠ []) :
    e.push_env.pop_env = e :=
  mem_push_pop e h

/-- Witness for C10 at the default environment. -/
theorem C10_push_pop_restores_state_witness :
    MemoryEnv.default.push_env.pop_env = MemoryEnv.default :=
  C10_push_pop_restores_state MemoryEnv.default (by simp [MemoryEnv.default])

/-! ## C1 -/

/-- C1: on the in-memory backend, after `push_env(); define_data(x, t,
false); pop_env()` the local binding has not leaked: if `x` resolved to
nothing before the sequence it still resolves to nothing after it; and a
binding of `x` defined with `in_root = true` before the push (not shadowed
by any live scope binding) is still returned by `resolve(x)` after the
pop. -/
theorem C1_scoped_binding_does_not_leak (s0 : MemoryEnv) (x : String) (t r : Tup)
    (hne : s0.stack ≠ [])
    (hsh : ∀ layer ∈ s0.stack, lookupA layer x = none)
    (s1 sA sB : MemoryEnv)
    (hA : s0.push_env.define_data x t false = .ok sA)
    (h1 : s0.define_data x r true = .ok s1)
    (hB : s1.push_env.define_data x t false = .ok sB) :
    (s0.resolve x = none → sA.pop_env.resolve x = none) ∧
    sB.pop_env.resolve x = some r := by
  obtain ⟨hA', hApop⟩ := mem_push_def_pop s0 x t hne
  rw [hA'] at hA
  cases hA
  simp only [MemoryEnv.define_data, if_pos, Except.ok.injEq] at h1
  subst h1
  have hne1 : ({ s0 with root := insertA s0.root x r } : MemoryEnv).stack ≠ [] := hne
  obtain ⟨hB', hBpop⟩ := mem_push_def_pop _ x t hne1
  rw [hB'] at hB
  cases hB
  refine ⟨fun hnone => ?_, ?_⟩
  · rw [hApop]; exact hnone
  · rw [hBpop]
    simp only [MemoryEnv.resolve]
    rw [List.findSome?_eq_none_iff.2 hsh]
    simp [lookupA_insertA_self]

/-- Witness for C1: default environment, `x` locally bound to one value
tuple and root-bound to another. -/
theorem C1_scoped_binding_does_not_leak_witness :
    (MemoryEnv.default.resolve "x" = none →
      (MemoryEnv.mk [] [[], [("x", ⟨some .Value, [.UInt 1]⟩)]] 0).pop_env.resolve "x"
        = none) ∧
    (MemoryEnv.mk [("x", ⟨some .Value, [.UInt 2]⟩)]
        [[], [("x", ⟨some .Value, [.UInt 1]⟩)]] 0).pop_env.resolve "x"
      = some ⟨some .Value, [.UInt 2]⟩ :=
  C1_scoped_binding_does_not_leak MemoryEnv.default "x"
    ⟨some .Value, [.UInt 1]⟩ ⟨some .Value, [.UInt 2]⟩
    (by simp [MemoryEnv.default])
    (by intro layer hl
        simp only [MemoryEnv.default, List.mem_singleton] at hl
        subst hl; rfl)
    ⟨[("x", ⟨some .Value, [.UInt 2]⟩)], [[]], 0⟩
    ⟨[], [[], [("x", ⟨some .Value, [.UInt 1]⟩)]], 0⟩
    ⟨[("x", ⟨some .Value, [.UInt 2]⟩)], [[], [("x", ⟨some .Value, [.UInt 1]⟩)]], 0⟩
    rfl rfl rfl

/-! ## C8 -/

/-- C8 counterexample: the in-memory backend at the root scope, with no
nested scope entered (its default state), reports stack depth `-1`, not `0`
as claimed — its depth is minus the number of scope maps and the stack
always carries one initial map. -/
theorem C8_root_depth_cex :
    MemoryEnv.default.get_stack_depth = -1 ∧
    MemoryEnv.default.get_stack_depth ≠ 0 := by
  constructor
  · rfl
  · decide

/-- C8 amended: the transactional backend reports depth 0 at the root
scope; the in-memory backend reports -1 there (minus the one initial scope
map); on both backends each `push_env` makes the reported depth strictly
more negative than the enclosing scope's, and `pop_env` restores it. -/
theorem C8_stack_depth_amended (e : MemoryEnv) (st : Session)
    (he : e.stack ≠ []) (hd : st.stack_depth ≤ 0) :
    Session.start.get_stack_depth = 0 ∧
    MemoryEnv.default.get_stack_depth = -1 ∧
    e.push_env.get_stack_depth < e.get_stack_depth ∧
    st.push_env.get_stack_depth < st.get_stack_depth ∧
    e.push_env.pop_env.get_stack_depth = e.get_stack_depth ∧
    st.push_env.pop_env.get_stack_depth = st.get_stack_depth := by
  refine ⟨rfl, rfl, ?_, ?_, ?_, ?_⟩
  · simp only [MemoryEnv.push_env, MemoryEnv.get_stack_depth, List.length_append,
      List.length_cons, List.length_nil]
    omega
  · simp only [Session.push_env, Session.get_stack_depth]
    omega
  · rw [mem_push_pop e he]
  · simp only [Session.push_env, Session.pop_env, Session.get_stack_depth]
    split
    · omega
    · omega

/-- Witness for C8 at the two backends' fresh states. -/
theorem C8_stack_depth_amended_witness :
    Session.start.get_stack_depth = 0 ∧
    MemoryEnv.default.get_stack_depth = -1 ∧
    MemoryEnv.default.push_env.get_stack_depth < MemoryEnv.default.get_stack_depth ∧
    Session.start.push_env.get_stack_depth < Session.start.get_stack_depth ∧
    MemoryEnv.default.push_env.pop_env.get_stack_depth
      = MemoryEnv.default.get_stack_depth ∧
    Session.start.push_env.pop_env.get_stack_depth
      = Session.start.get_stack_depth :=
  C8_stack_depth_amended MemoryEnv.default Session.start
    (by simp [MemoryEnv.default]) (by simp [Session.start])

/-! ## C9 -/

/-- C9 counterexample: on the transactional backend, popping at the root
scope (depth 0, no scope ever entered) is not a no-op: a binding defined
locally at depth 0 resolves before the pop and no longer resolves after
it — `pop_env` range-deletes every temporary binding keyed at the current
depth, which at the root is depth 0. -/
theorem C9_pop_at_root_cex :
    (Session.start.define_data "x" ⟨some .Value, [.UInt 7]⟩ false).stack_depth
      = 0 ∧
    (Session.start.define_data "x" ⟨some .Value, [.UInt 7]⟩ false).resolve "x"
      = some ⟨some .Value, [.UInt 7]⟩ ∧
    (Session.start.define_data "x" ⟨some .Value, [.UInt 7]⟩ false).pop_env.resolve "x"
      = none :=
  ⟨rfl, rfl, rfl⟩

/-- C9 amended: popping at the root scope never errors and never moves the
depth; on the in-memory backend it is a full no-op (state unchanged), and
on the transactional backend it leaves the root (permanent) namespace and
the depth unchanged — though it deletes temporary-namespace bindings keyed
at depth 0, as the counterexample shows. -/
theorem C9_pop_at_root_amended (e : MemoryEnv) (st : Session)
    (he : e.stack.length ≤ 1) (hd : st.stack_depth = 0) :
    e.pop_env = e ∧
    st.pop_env.stack_depth = 0 ∧
    st.pop_env.perm = st.perm := by
  refine ⟨?_, ?_, rfl⟩
  · simp only [MemoryEnv.pop_env]
    rw [if_neg (by omega)]
  · simp only [Session.pop_env, hd]
    simp

/-- Witness for C9 at the two backends' fresh states. -/
theorem C9_pop_at_root_amended_witness :
    MemoryEnv.default.pop_env = MemoryEnv.default ∧
    Session.start.pop_env.stack_depth = 0 ∧
    Session.start.pop_env.perm = Session.start.perm :=
  C9_pop_at_root_amended MemoryEnv.default Session.start
    (by simp [MemoryEnv.default]) rfl

/-! ## Column parsing: C5 and C4 -/

/-- With pairwise-distinct names, `parse_cols` partitions into key and
value typings. -/
theorem parse_cols_nodup_ok (cols : List (Bool × String × Typing))
    (h : (cols.map (fun c => c.2.1)).Nodup) :
    parse_cols cols = .ok
      (Typing.NamedTuple ((cols.filter (fun c => c.1)).map (fun c => (c.2.1, c.2.2))),
       Typing.NamedTuple ((cols.filter (fun c => !c.1)).map (fun c => (c.2.1, c.2.2)))) := by
  simp only [parse_cols]
  rw [if_pos h]

/-- With a repeated name, `parse_cols` fails with `DuplicateNames` listing
every column name. -/
theorem parse_cols_dup_err (cols : List (Bool × String × Typing))
    (h : ¬ (cols.map (fun c => c.2.1)).Nodup) :
    parse_cols cols = .error (.DuplicateNames (cols.map (fun c => c.2.1))) := by
  simp only [parse_cols]
  rw [if_neg h]

/-- The rendering of a non-empty column list is a non-empty string. -/
theorem ntBody_length_pos (c : String × Typing) (cs : List (String × Typing)) :
    1 ≤ (ntBody (c :: cs)).length := by
  obtain ⟨n, t⟩ := c
  have hcolon : (":" : String).length = 1 := rfl
  cases cs with
  | nil => simp [ntBody, String.length_append, hcolon]; omega
  | cons d ds => simp [ntBody, String.length_append, hcolon]; omega

/-- The empty named tuple renders as `"()"`. -/
theorem ntuple_nil_to_string : (Typing.NamedTuple []).to_string = "()" := by
  simp [Typing.to_string, ntBody]

/-- A non-empty named tuple never renders as `"()"`. -/
theorem ntuple_cons_to_string_ne (c : String × Typing) (cs : List (String × Typing)) :
    (Typing.NamedTuple (c :: cs)).to_string ≠ "()" := by
  intro h
  have hlen := congrArg String.length h
  have h2 : ("()" : String).length = 2 := rfl
  have h3 := ntBody_length_pos c cs
  simp only [Typing.to_string, String.length_append, h2] at hlen
  have h4 : ("(" : String).length = 1 := rfl
  have h5 : (")" : String).length = 1 := rfl
  omega

/-- C5: a column list with a repeated name makes `parse_cols` — and hence a
node definition built from it — fail with `DuplicateNames`; with all names
distinct, `parse_cols` partitions the columns into the key-marked ones and
the rest, preserving order, and returns the two `NamedTuple` typings. -/
theorem C5_parse_cols_duplicates_and_partition
    (cols : List (Bool × String × Typing)) :
    (¬ (cols.map (fun c => c.2.1)).Nodup →
      parse_cols cols = .error (.DuplicateNames (cols.map (fun c => c.2.1))) ∧
      ∀ name, parse_node_def name cols
        = .error (.DuplicateNames (cols.map (fun c => c.2.1)))) ∧
    ((cols.map (fun c => c.2.1)).Nodup →
      parse_cols cols = .ok
        (Typing.NamedTuple ((cols.filter (fun c => c.1)).map (fun c => (c.2.1, c.2.2))),
         Typing.NamedTuple ((cols.filter (fun c => !c.1)).map (fun c => (c.2.1, c.2.2))))) := by
  constructor
  · intro h
    refine ⟨parse_cols_dup_err cols h, fun name => ?_⟩
    simp [parse_node_def, parse_cols_dup_err cols h]
  · intro h
    exact parse_cols_nodup_ok cols h

/-- Witness for C5: a duplicated `id` column fails, distinct names
partition. -/
theorem C5_parse_cols_duplicates_and_partition_witness :
    parse_cols [(true, "id", .Primitive "Int"), (false, "id", .Primitive "Text")]
      = .error (.DuplicateNames ["id", "id"]) ∧
    parse_cols [(true, "id", .Primitive "Int"), (false, "name", .Primitive "Text")]
      = .ok (.NamedTuple [("id", .Primitive "Int")],
             .NamedTuple [("name", .Primitive "Text")]) := by
  have h1 := (C5_parse_cols_duplicates_and_partition
    [(true, "id", .Primitive "Int"), (false, "id", .Primitive "Text")]).1 (by simp)
  have h2 := (C5_parse_cols_duplicates_and_partition
    [(true, "id", .Primitive "Int"), (false, "name", .Primitive "Text")]).2 (by simp)
  exact ⟨h1.1, by simpa using h2⟩

/-- C4: under a source that resolves to a table whose id extraction
succeeds and that passes the root-globality rule, an association definition
with distinct column names and at least one key-marked column fails with
the `LogicError` "Cannot have keys in assoc"; one whose columns are all
non-key passes that check and succeeds. -/
theorem C4_assoc_rejects_key_columns (res : String → Option Tup)
    (name src_name : String) (cols : List (Bool × String × Typing))
    (in_root : Bool) (t : Tup) (k : DataKind) (g : Bool) (i : Nat)
    (hres : res src_name = some t)
    (hex : extract_table_id t = .ok (k, g, i))
    (hroot : (in_root && !g) = false)
    (hnd : (cols.map (fun c => c.2.1)).Nodup) :
    ((∃ c ∈ cols, c.1 = true) →
      parse_assoc_def res name src_name cols in_root
        = .error (.LogicError "Cannot have keys in assoc")) ∧
    ((∀ c ∈ cols, c.1 = false) →
      parse_assoc_def res name src_name cols in_root
        = .ok (name, ⟨some .Associate, [.Bool g, .UInt i,
            .Text (Typing.NamedTuple
              ((cols.filter (fun c => !c.1)).map (fun c => (c.2.1, c.2.2)))).to_string]⟩)) := by
  have hpc := parse_cols_nodup_ok cols hnd
  constructor
  · rintro ⟨c, hc, hck⟩
    have hmem : (c.2.1, c.2.2) ∈ (cols.filter (fun c => c.1)).map (fun c => (c.2.1, c.2.2)) :=
      List.mem_map.2 ⟨c, List.mem_filter.2 ⟨hc, by simpa using hck⟩, rfl⟩
    obtain ⟨d, ds, hds⟩ :=
      List.exists_cons_of_ne_nil (List.ne_nil_of_mem hmem)
    simp only [parse_assoc_def, hres, hex, hroot, Bool.false_eq_true, if_false, hpc]
    rw [if_pos]
    rw [hds]
    exact ntuple_cons_to_string_ne d ds
  · intro hall
    have hfil : (cols.filter (fun c => c.1)).map (fun c => (c.2.1, c.2.2)) = [] := by
      rw [List.filter_eq_nil_iff.2 (by intro c hc; simpa using hall c hc)]
      rfl
    simp only [parse_assoc_def, hres, hex, hroot, Bool.false_eq_true, if_false, hpc]
    rw [if_neg]
    rw [hfil]
    simp [ntuple_nil_to_string]

/-- Witness for C4: a keyed association against a resolvable global node
fails with the keys `LogicError`. -/
theorem C4_assoc_rejects_key_columns_witness :
    parse_assoc_def
      (fun n => if n = "P" then some ⟨some .Node, [.Bool true, .UInt 1]⟩ else none)
      "W" "P" [(true, "k", .Primitive "Int")] true
      = .error (.LogicError "Cannot have keys in assoc") :=
  (C4_assoc_rejects_key_columns
    (fun n => if n = "P" then some ⟨some .Node, [.Bool true, .UInt 1]⟩ else none)
    "W" "P" [(true, "k", .Primitive "Int")] true
    ⟨some .Node, [.Bool true, .UInt 1]⟩ .Node true 1
    rfl rfl rfl (by simp)).1 ⟨(true, "k", .Primitive "Int"), by simp, rfl⟩

/-! ## C3 -/

/-- C3 counterexample: with `in_root = true` and a source name resolving to
a *non-global, non-Node* definition (here an `Associate`-kind table), the
claim demands `UnexpectedDataKind`, but `parse_edge_def` checks root
globality first and fails with `LogicError` instead. -/
theorem C3_edge_error_precedence_cex :
    (fun n => if n = "A" then some (Tup.mk (some .Associate) [.Bool false, .UInt 1])
              else none) "A"
      = some (Tup.mk (some .Associate) [.Bool false, .UInt 1]) ∧
    parse_edge_def
      (fun n => if n = "A" then some (Tup.mk (some .Associate) [.Bool false, .UInt 1])
                else none)
      "A" "E" "A" none true
      = .error (.LogicError "Cannot have global edge with local nodes") :=
  ⟨rfl, rfl⟩

/-- C3 amended: `parse_edge_def` checks each endpoint in order (source
first, then destination): an endpoint resolving to a `DataTuple`, `Value`
or `TypeAlias` definition fails with `UnexpectedDataKind`; otherwise, in
root scope, an endpoint whose global flag is `false` fails with
`LogicError` — this check precedes the Node-kind check, so a local
`Edge`/`Associate` endpoint in root scope reports `LogicError`, not
`UnexpectedDataKind`; otherwise an `Edge`/`Associate` endpoint fails with
`UnexpectedDataKind`; and when both endpoints resolve to global `Node`
definitions the edge definition succeeds (here with no column list). -/
theorem C3_edge_endpoint_checks_amended (res : String → Option Tup)
    (src nm dst : String) (in_root : Bool) :
    (res src = none →
      parse_edge_def res src nm dst none in_root = .error (.UndefinedType src)) ∧
    (∀ t k, res src = some t → t.tag = some k →
      (k = .DataTuple ∨ k = .Value ∨ k = .TypeAlias) →
      parse_edge_def res src nm dst none in_root
        = .error (.UnexpectedDataKind k)) ∧
    (∀ t k i, res src = some t → t.tag = some k →
      (k = .Node ∨ k = .Edge ∨ k = .Associate) →
      t.get 0 = some (.Bool false) → t.get 1 = some (.UInt i) → in_root = true →
      parse_edge_def res src nm dst none in_root
        = .error (.LogicError "Cannot have global edge with local nodes")) ∧
    (∀ t k g i, res src = some t → t.tag = some k →
      (k = .Edge ∨ k = .Associate) →
      t.get 0 = some (.Bool g) → t.get 1 = some (.UInt i) →
      (in_root && !g) = false →
      parse_edge_def res src nm dst none in_root
        = .error (.UnexpectedDataKind k)) ∧
    (∀ ts si td k i, res src = some ts → ts.tag = some DataKind.Node →
      ts.get 0 = some (.Bool true) → ts.get 1 = some (.UInt si) →
      res dst = some td → td.tag = some k →
      (k = .Node ∨ k = .Edge ∨ k = .Associate) →
      td.get 0 = some (.Bool false) → td.get 1 = some (.UInt i) → in_root = true →
      parse_edge_def res src nm dst none in_root
        = .error (.LogicError "Cannot have global edge with local nodes")) ∧
    (∀ ts si td di, res src = some ts → ts.tag = some DataKind.Node →
      ts.get 0 = some (.Bool true) → ts.get 1 = some (.UInt si) →
      res dst = some td → td.tag = some DataKind.Node →
      td.get 0 = some (.Bool true) → td.get 1 = some (.UInt di) →
      parse_edge_def res src nm dst none in_root
        = .ok (nm, ⟨some .Edge, [.Bool true, .UInt si, .Bool true, .UInt di,
            .Text "()", .Text "()", .Null, .Null]⟩)) := by
  refine ⟨?_, ?_, ?_, ?_, ?_, ?_⟩
  · intro h
    simp [parse_edge_def, h]
  · intro t k ht htag hk
    rcases hk with rfl | rfl | rfl <;>
      simp [parse_edge_def, ht, extract_table_id, htag]
  · intro t k i ht htag hk h0 h1 hroot
    subst hroot
    rcases hk with rfl | rfl | rfl <;>
      simp [parse_edge_def, ht, extract_table_id, htag, h0, h1]
  · intro t k g i ht htag hk h0 h1 hroot
    rcases hk with rfl | rfl <;>
      simp [parse_edge_def, ht, extract_table_id, htag, h0, h1, hroot]
  · intro ts si td k i hts htags hs0 hs1 htd htagd hk hd0 hd1 hroot
    subst hroot
    rcases hk with rfl | rfl | rfl <;>
      simp [parse_edge_def, hts, extract_table_id, htags, hs0, hs1, htd, htagd,
        hd0, hd1]
  · intro ts si td di hts htags hs0 hs1 htd htagd hd0 hd1
    simp [parse_edge_def, hts, extract_table_id, htags, hs0, hs1, htd, htagd,
      hd0, hd1, ntuple_nil_to_string]

/-- A concrete resolver: a global node `N`, a local node `L` and a value
binding `V`. -/
def resC3w : String → Option Tup := fun n =>
  if n = "N" then some ⟨some .Node, [.Bool true, .UInt 1]⟩
  else if n = "L" then some ⟨some .Node, [.Bool false, .UInt 2]⟩
  else if n = "V" then some ⟨some .Value, [.Int 9]⟩
  else none

/-- Witness for C3: a concrete environment with a global node, a local
node, and a value binding, exercising the `UnexpectedDataKind` arm, the
`LogicError` precedence and the success case. -/
theorem C3_edge_endpoint_checks_amended_witness :
    parse_edge_def resC3w "V" "E" "N" none true
      = .error (.UnexpectedDataKind .Value) ∧
    parse_edge_def resC3w "L" "E" "N" none true
      = .error (.LogicError "Cannot have global edge with local nodes") ∧
    parse_edge_def resC3w "N" "E" "N" none true
      = .ok ("E", ⟨some .Edge, [.Bool true, .UInt 1, .Bool true, .UInt 1,
          .Text "()", .Text "()", .Null, .Null]⟩) := by
  obtain ⟨-, h2, h3, -, -, h6⟩ :=
    C3_edge_endpoint_checks_amended resC3w "V" "E" "N" true
  obtain ⟨-, -, h3', -, -, -⟩ :=
    C3_edge_endpoint_checks_amended resC3w "L" "E" "N" true
  obtain ⟨-, -, -, -, -, h6'⟩ :=
    C3_edge_endpoint_checks_amended resC3w "N" "E" "N" true
  exact ⟨h2 _ _ rfl rfl (Or.inr (Or.inl rfl)),
         h3' _ _ 2 rfl rfl (Or.inl rfl) rfl rfl rfl,
         h6' _ 1 _ 1 rfl rfl rfl rfl rfl rfl rfl rfl⟩

/-! ## C7 -/

/-- C7: the `Variable` rule of `partial_eval`: an unresolved name is
returned unchanged with flag `false` (no error); a name resolving to a
`Value`-kind definition tuple is replaced by the tuple's payload, paired
with the payload's own is-evaluated flag; a name resolving to a definition
of any other kind is returned unchanged with flag `false`. -/
theorem C7_partial_eval_variable (res : String → Option Tup) (n : String) :
    (res n = none →
      partial_eval res (.Variable n) = .ok (false, .Variable n)) ∧
    (∀ t p, res n = some t → t.tag = some DataKind.Value → t.get 0 = some p →
      partial_eval res (.Variable n) = .ok (p.evaluated, p)) ∧
    (∀ t k, res n = some t → t.tag = some k → k ≠ DataKind.Value →
      partial_eval res (.Variable n) = .ok (false, .Variable n)) := by
  refine ⟨?_, ?_, ?_⟩
  · intro h
    simp [partial_eval, h]
  · intro t p ht htag hp
    simp [partial_eval, ht, htag, hp]
  · intro t k ht htag hk
    cases k with
    | Value => exact absurd rfl hk
    | DataTuple => simp [partial_eval, ht, htag]
    | Node => simp [partial_eval, ht, htag]
    | Edge => simp [partial_eval, ht, htag]
    | Associate => simp [partial_eval, ht, htag]
    | TypeAlias => simp [partial_eval, ht, htag]

/-- A concrete resolver for the C7 witness: `b` is a value binding, `c` a
node table, `a` unbound. -/
def resC7w : String → Option Tup := fun n =>
  if n = "b" then some ⟨some .Value, [.Int 5]⟩
  else if n = "c" then some ⟨some .Node, [.Bool true, .UInt 1]⟩
  else none

/-- Witness for C7 at the three kinds of resolution outcome. -/
theorem C7_partial_eval_variable_witness :
    partial_eval resC7w (.Variable "a") = .ok (false, .Variable "a") ∧
    partial_eval resC7w (.Variable "b") = .ok (true, .Int 5) ∧
    partial_eval resC7w (.Variable "c") = .ok (false, .Variable "c") := by
  obtain ⟨h1, h2, h3⟩ := C7_partial_eval_variable resC7w "a"
  obtain ⟨-, h2', -⟩ := C7_partial_eval_variable resC7w "b"
  obtain ⟨-, -, h3'⟩ := C7_partial_eval_variable resC7w "c"
  refine ⟨h1 rfl, ?_, h3' ⟨some .Node, [.Bool true, .UInt 1]⟩ .Node rfl rfl (by simp)⟩
  have := h2' ⟨some .Value, [.Int 5]⟩ (.Int 5) rfl rfl rfl
  simpa [Val.evaluated] using this

/-! ## C6 -/

/-- Every `Value`-kind definition reachable through `resolve` stores a
fully-evaluated payload (the spec's data model calls the payload "a bound
scalar/container"). -/
def resolves_evaluated (res : String → Option Tup) : Prop :=
  ∀ nm t p, res nm = some t → t.tag = some DataKind.Value →
    t.get 0 = some p → p.evaluated = true

/-- A fully-evaluated value reduces to itself with flag `true`, by strong
induction on size. -/
theorem pe_evaluated_self (res : String → Option Tup) :
    ∀ n : Nat,
      (∀ v : Val, sizeOf v ≤ n → v.evaluated = true →
        partial_eval res v = .ok (true, v)) ∧
      (∀ l : List Val, sizeOf l ≤ n → evList l = true →
        peList res l = .ok (true, l)) ∧
      (∀ d : List (String × Val), sizeOf d ≤ n → evDict d = true →
        peDict res d = .ok (true, d)) := by
  intro n
  induction n with
  | zero =>
    refine ⟨fun v hv _ => absurd hv (by cases v <;> simp_arith),
            fun l hl _ => absurd hl (by cases l <;> simp_arith),
            fun d hd _ => absurd hd (by cases d <;> simp_arith)⟩
  | succ n ih =>
    obtain ⟨ihv, ihl, ihd⟩ := ih
    refine ⟨?_, ?_, ?_⟩
    · intro v hv hev
      cases v with
      | Null => simp [partial_eval]
      | Bool x => simp [partial_eval]
      | UInt x => simp [partial_eval]
      | Int x => simp [partial_eval]
      | Float x => simp [partial_eval]
      | Uuid x => simp [partial_eval]
      | Text x => simp [partial_eval]
      | EndSentinel => simp [partial_eval]
      | List l =>
        have hs : sizeOf l ≤ n := by simp at hv; omega
        have := ihl l hs (by simpa [Val.evaluated] using hev)
        simp [partial_eval, this]
      | Dict d =>
        have hs : sizeOf d ≤ n := by simp at hv; omega
        have := ihd d hs (by simpa [Val.evaluated] using hev)
        simp [partial_eval, this]
      | Variable m => exact absurd hev (by simp [Val.evaluated])
      | Apply op args => exact absurd hev (by simp [Val.evaluated])
    · intro l hl hev
      cases l with
      | nil => simp [peList]
      | cons v vs =>
        have s1 : sizeOf v ≤ n := by simp at hl; omega
        have s2 : sizeOf vs ≤ n := by simp at hl; omega
        obtain ⟨he1, he2⟩ : v.evaluated = true ∧ evList vs = true := by
          simpa [evList, Bool.and_eq_true] using hev
        simp [peList, ihv v s1 he1, ihl vs s2 he2]
    · intro d hd hev
      cases d with
      | nil => simp [peDict]
      | cons kv rest =>
        obtain ⟨k, v⟩ := kv
        have s1 : sizeOf v ≤ n := by simp at hd; omega
        have s2 : sizeOf rest ≤ n := by simp at hd; omega
        obtain ⟨he1, he2⟩ : v.evaluated = true ∧ evDict rest = true := by
          simpa [evDict, Bool.and_eq_true] using hev
        simp [peDict, ihv v s1 he1, ihd rest s2 he2]

/-- Stability of reduced values: whenever `partial_eval` succeeds, its
result re-evaluates to itself with the same flag, provided resolvable
`Value`-kind payloads are fully evaluated.  Strong induction on size. -/
theorem pe_stable (res : String → Option Tup) (H : resolves_evaluated res) :
    ∀ n : Nat,
      (∀ v b w, sizeOf v ≤ n → partial_eval res v = .ok (b, w) →
        partial_eval res w = .ok (b, w)) ∧
      (∀ l b l', sizeOf l ≤ n → peList res l = .ok (b, l') →
        peList res l' = .ok (b, l')) ∧
      (∀ d b d', sizeOf d ≤ n → peDict res d = .ok (b, d') →
        peDict res d' = .ok (b, d')) := by
  intro n
  induction n with
  | zero =>
    refine ⟨fun v b w hv _ => absurd hv (by cases v <;> simp_arith),
            fun l b l' hl _ => absurd hl (by cases l <;> simp_arith),
            fun d b d' hd _ => absurd hd (by cases d <;> simp_arith)⟩
  | succ n ih =>
    obtain ⟨ihv, ihl, ihd⟩ := ih
    refine ⟨?_, ?_, ?_⟩
    · intro v b w hv hpe
      cases v with
      | Null => simp [partial_eval] at hpe; obtain ⟨rfl, rfl⟩ := hpe; simp [partial_eval]
      | Bool x => simp [partial_eval] at hpe; obtain ⟨rfl, rfl⟩ := hpe; simp [partial_eval]
      | UInt x => simp [partial_eval] at hpe; obtain ⟨rfl, rfl⟩ := hpe; simp [partial_eval]
      | Int x => simp [partial_eval] at hpe; obtain ⟨rfl, rfl⟩ := hpe; simp [partial_eval]
      | Float x => simp [partial_eval] at hpe; obtain ⟨rfl, rfl⟩ := hpe; simp [partial_eval]
      | Uuid x => simp [partial_eval] at hpe; obtain ⟨rfl, rfl⟩ := hpe; simp [partial_eval]
      | Text x => simp [partial_eval] at hpe; obtain ⟨rfl, rfl⟩ := hpe; simp [partial_eval]
      | EndSentinel => simp [partial_eval] at hpe; obtain ⟨rfl, rfl⟩ := hpe; simp [partial_eval]
      | Apply op args => simp [partial_eval] at hpe
      | List l =>
        cases h1 : peList res l with
        | error e => simp [partial_eval, h1] at hpe
        | ok bl =>
          obtain ⟨b1, l1⟩ := bl
          simp [partial_eval, h1] at hpe
          obtain ⟨rfl, rfl⟩ := hpe
          have hs : sizeOf l ≤ n := by simp at hv; omega
          simp [partial_eval, ihl l b1 l1 hs h1]
      | Dict d =>
        cases h1 : peDict res d with
        | error e => simp [partial_eval, h1] at hpe
        | ok bd =>
          obtain ⟨b1, d1⟩ := bd
          simp [partial_eval, h1] at hpe
          obtain ⟨rfl, rfl⟩ := hpe
          have hs : sizeOf d ≤ n := by simp at hv; omega
          simp [partial_eval, ihd d b1 d1 hs h1]
      | Variable nm =>
        cases hres : res nm with
        | none =>
          simp [partial_eval, hres] at hpe
          obtain ⟨rfl, rfl⟩ := hpe
          simp [partial_eval, hres]
        | some rs =>
          cases htag : rs.tag with
          | none =>
            simp [partial_eval, hres, htag] at hpe
            obtain ⟨rfl, rfl⟩ := hpe
            simp [partial_eval, hres, htag]
          | some k =>
            cases k with
            | Value =>
              cases hget : rs.get 0 with
              | none => simp [partial_eval, hres, htag, hget] at hpe
              | some p =>
                simp [partial_eval, hres, htag, hget] at hpe
                obtain ⟨rfl, rfl⟩ := hpe
                have hev : p.evaluated = true := H nm rs p hres htag hget
                rw [hev]
                exact (pe_evaluated_self res (sizeOf p)).1 p le_rfl hev
            | DataTuple =>
              simp [partial_eval, hres, htag] at hpe
              obtain ⟨rfl, rfl⟩ := hpe
              simp [partial_eval, hres, htag]
            | Node =>
              simp [partial_eval, hres, htag] at hpe
              obtain ⟨rfl, rfl⟩ := hpe
              simp [partial_eval, hres, htag]
            | Edge =>
              simp [partial_eval, hres, htag] at hpe
              obtain ⟨rfl, rfl⟩ := hpe
              simp [partial_eval, hres, htag]
            | Associate =>
              simp [partial_eval, hres, htag] at hpe
              obtain ⟨rfl, rfl⟩ := hpe
              simp [partial_eval, hres, htag]
            | TypeAlias =>
              simp [partial_eval, hres, htag] at hpe
              obtain ⟨rfl, rfl⟩ := hpe
              simp [partial_eval, hres, htag]
    · intro l b l' hl hpe
      cases l with
      | nil => simp [peList] at hpe; obtain ⟨rfl, rfl⟩ := hpe; simp [peList]
      | cons v vs =>
        cases h1 : partial_eval res v with
        | error e => simp [peList, h1] at hpe
        | ok bw =>
          obtain ⟨b1, w1⟩ := bw
          cases h2 : peList res vs with
          | error e => simp [peList, h1, h2] at hpe
          | ok bws =>
            obtain ⟨bs, ws⟩ := bws
            simp [peList, h1, h2] at hpe
            obtain ⟨rfl, rfl⟩ := hpe
            have s1 : sizeOf v ≤ n := by simp at hl; omega
            have s2 : sizeOf vs ≤ n := by simp at hl; omega
            simp [peList, ihv v b1 w1 s1 h1, ihl vs bs ws s2 h2]
    · intro d b d' hd hpe
      cases d with
      | nil => simp [peDict] at hpe; obtain ⟨rfl, rfl⟩ := hpe; simp [peDict]
      | cons kv rest =>
        obtain ⟨k, v⟩ := kv
        cases h1 : partial_eval res v with
        | error e => simp [peDict, h1] at hpe
        | ok bw =>
          obtain ⟨b1, w1⟩ := bw
          cases h2 : peDict res rest with
          | error e => simp [peDict, h1, h2] at hpe
          | ok bws =>
            obtain ⟨bs, ws⟩ := bws
            simp [peDict, h1, h2] at hpe
            obtain ⟨rfl, rfl⟩ := hpe
            have s1 : sizeOf v ≤ n := by simp at hd; omega
            have s2 : sizeOf rest ≤ n := by simp at hd; omega
            simp [peDict, ihv v b1 w1 s1 h1, ihd rest bs ws s2 h2]

/-- A resolver whose bindings chain: `x` stores the variable `y`, which
stores `3`. -/
def resC6cex : String → Option Tup := fun n =>
  if n = "x" then some ⟨some .Value, [.Variable "y"]⟩
  else if n = "y" then some ⟨some .Value, [.Int 3]⟩ else none

/-- C6 counterexample: with `x` bound to the stored value `Variable "y"`
and `y` bound to `3`, `partial_eval (Variable "x")` succeeds with
`(false, Variable "y")`, but a second pass on the reduced value yields
`(true, 3)` — so `partial_eval (partial_eval v).1` differs from
`partial_eval v`. -/
theorem C6_partial_eval_chained_cex :
    partial_eval resC6cex (.Variable "x") = .ok (false, .Variable "y") ∧
    partial_eval resC6cex (.Variable "y") = .ok (true, .Int 3) ∧
    (Except.ok ((true : Bool), Val.Int 3) : Except CozoError (Bool × Val))
      ≠ .ok (false, .Variable "y") := by
  refine ⟨?_, ?_, by simp⟩
  · simp [partial_eval, resC6cex, Val.evaluated, Tup.get]
  · simp [partial_eval, resC6cex, Val.evaluated, Tup.get]

/-- C6 amended: partial evaluation is idempotent on every value on which it
succeeds, provided every resolvable `Value`-kind definition stores a
fully-evaluated payload; in general a stored payload that itself contains
unresolved variables (the counterexample) lets a second pass progress
further. -/
theorem C6_partial_eval_idempotent_amended (res : String → Option Tup)
    (H : resolves_evaluated res) (v : Val) (b : Bool) (w : Val)
    (h : partial_eval res v = .ok (b, w)) :
    partial_eval res w = .ok (b, w) :=
  (pe_stable res H (sizeOf v)).1 v b w le_rfl h

/-- The empty resolver. -/
def resC6w : String → Option Tup := fun _ => none

/-- Witness for C6 on a partially reducible list under the empty
resolver. -/
theorem C6_partial_eval_idempotent_amended_witness :
    partial_eval resC6w (.List [.Int 1, .Variable "q"])
      = .ok (false, .List [.Int 1, .Variable "q"]) :=
  C6_partial_eval_idempotent_amended resC6w
    (by intro nm t p h _ _; simp [resC6w] at h)
    (.List [.Int 1, .Variable "q"]) false (.List [.Int 1, .Variable "q"])
    (by simp [partial_eval, peList, resC6w])

/-! ## C2 -/

/-- C2 counterexample: on the in-memory backend, binding `x` at an outer
scope and again at a nested inner scope makes `resolve("x")` return the
*outer* binding — `MemoryEnv::resolve` scans scope maps oldest-first — not
the inner binding the claim demands of both backends.  The two definition
steps and the final resolution are shown at concrete states. -/
theorem C2_memory_resolves_outer_cex :
    MemoryEnv.default.push_env.define_data "x" ⟨some .Value, [.UInt 1]⟩ false
      = .ok ⟨[], [[], [("x", ⟨some .Value, [.UInt 1]⟩)]], 0⟩ ∧
    (MemoryEnv.mk [] [[], [("x", ⟨some .Value, [.UInt 1]⟩)]] 0).push_env.define_data
        "x" ⟨some .Value, [.UInt 2]⟩ false
      = .ok ⟨[], [[], [("x", ⟨some .Value, [.UInt 1]⟩)],
          [("x", ⟨some .Value, [.UInt 2]⟩)]], 0⟩ ∧
    (MemoryEnv.mk [] [[], [("x", ⟨some .Value, [.UInt 1]⟩)],
        [("x", ⟨some .Value, [.UInt 2]⟩)]] 0).resolve "x"
      = some ⟨some .Value, [.UInt 1]⟩ ∧
    Tup.mk (some .Value) [.UInt 1] ≠ Tup.mk (some .Value) [.UInt 2] := by
  refine ⟨rfl, rfl, rfl, by simp⟩

/-- `findSome?` skips a front segment on which the function yields
nothing. -/
theorem findSome?_append_none {α β : Type} (f : α → Option β)
    (l1 l2 : List α) (h : ∀ a ∈ l1, f a = none) :
    (l1 ++ l2).findSome? f = l2.findSome? f := by
  induction l1 with
  | nil => simp
  | cons a as ih =>
    have ha : f a = none := h a (by simp)
    have has : ∀ b ∈ as, f b = none := fun b hb => h b (by simp [hb])
    simp [List.findSome?_cons, ha, ih has]

/-- C2 amended: with `x` bound at an outer scope and again at a nested
inner scope (both local), the two reference backends disagree: the
in-memory backend's `resolve` scans scopes outer-to-inner, so the *outer*
binding wins; the transactional backend's `resolve` seeks the smallest
depth-code, so the *inner* binding wins. -/
theorem C2_shadowing_amended (s : MemoryEnv) (x : String) (t1 t2 : Tup)
    (hne : s.stack ≠ [])
    (hsh : ∀ layer ∈ s.stack, lookupA layer x = none)
    (s1 s2 : MemoryEnv)
    (h1 : s.push_env.define_data x t1 false = .ok s1)
    (h2 : s1.push_env.define_data x t2 false = .ok s2)
    (perm : Store) (y : String) (u1 u2 : Tup) :
    s2.resolve x = some t1 ∧
    ((((Session.mk perm [] 0).push_env.define_data y u1 false).push_env).define_data
        y u2 false).resolve y = some u2 := by
  constructor
  · obtain ⟨h1', -⟩ := mem_push_def_pop s x t1 hne
    rw [h1'] at h1
    cases h1
    have hne1 : (MemoryEnv.mk s.root (s.stack ++ [[(x, t1)]]) s.max_storage_id).stack
        ≠ [] := by simp
    obtain ⟨h2', -⟩ := mem_push_def_pop _ x t2 hne1
    rw [h2'] at h2
    cases h2
    simp only [MemoryEnv.resolve, List.append_assoc]
    rw [findSome?_append_none _ _ _ hsh]
    simp [List.findSome?_cons, lookupA]
  · simp only [Session.push_env, Session.define_data, Session.encode_definable_key,
      Session.resolve, seekFirst, sortedEntries, putKey, insEntry, keyLtB, kvalLtB,
      kTag]
    norm_num
    simp [List.find?, insEntry, keyLtB, kvalLtB, kTag, List.isPrefixOf]

/-- Witness for C2 at concrete states and bindings on both backends. -/
theorem C2_shadowing_amended_witness :
    (MemoryEnv.mk [] [[], [("x", ⟨some .Value, [.UInt 1]⟩)],
        [("x", ⟨some .Value, [.UInt 2]⟩)]] 0).resolve "x"
      = some ⟨some .Value, [.UInt 1]⟩ ∧
    ((((Session.mk [] [] 0).push_env.define_data "x" ⟨some .Value, [.UInt 1]⟩
        false).push_env).define_data "x" ⟨some .Value, [.UInt 2]⟩ false).resolve "x"
      = some ⟨some .Value, [.UInt 2]⟩ :=
  C2_shadowing_amended MemoryEnv.default "x"
    ⟨some .Value, [.UInt 1]⟩ ⟨some .Value, [.UInt 2]⟩
    (by simp [MemoryEnv.default])
    (by intro layer hl
        simp only [MemoryEnv.default, List.mem_singleton] at hl
        subst hl; rfl)
    ⟨[], [[], [("x", ⟨some .Value, [.UInt 1]⟩)]], 0⟩
    ⟨[], [[], [("x", ⟨some .Value, [.UInt 1]⟩)], [("x", ⟨some .Value, [.UInt 2]⟩)]], 0⟩
    rfl rfl [] "x" ⟨some .Value, [.UInt 1]⟩ ⟨some .Value, [.UInt 2]⟩

end Cozo
